import Mathlib

/-!
Verification of the drone-swarm simulation: a shallow embedding of the
delivery network (`Network.h`, `Node.h`, `Message.h`), the drone physics
(`Drone.cpp`) and the orchestrator (`Simulator.cpp`), with theorems checking
the specified behaviour against these definitions.

Modelling conventions:
* C++ `double` is modelled as an element of a linear ordered field: the
  network is parametric in the time type `τ` (instantiated at `ℚ` for
  executable scenarios), physics uses `ℝ` because `Vector2::length` takes a
  square root.
* Byte strings (payload / cipher text) are `List Nat` of byte values.
* The Mersenne-twister RNG feeding `uniform01_` and `jitterDist_` is
  modelled as an oracle stream `draws : Nat → τ × τ`: each `sendMessage`
  consumes one pair `(u, j)` where `u` models the `uniform01_` draw and `j`
  the `jitterDist_` draw, together with an index counter.
* Console and CSV logging are side effects outside the state model; the
  per-node mailbox dump that `printSummary` iterates is modelled by
  `mailboxDump`.
* The C++ field `from` is written `«from»` (Lean keyword).
-/

namespace DroneSwarm

/-- The fixed shared key `encryptionKey_ = "USMC-COMMS-KEY"` as byte values. -/
def encryptionKey : List Nat := [85, 83, 77, 67, 45, 67, 79, 77, 77, 83, 45, 75, 69, 89]

/-- The loop body of `Network::xorCipher`: byte `i` of the output is
`text[i] ^ key[i % key.size()]`. -/
def xorCipherAux (key : List Nat) : Nat → List Nat → List Nat
  | _, [] => []
  | i, c :: rest => (c ^^^ key.getD (i % key.length) 0) :: xorCipherAux key (i + 1) rest

/-- `Network::xorCipher(text, key)`. -/
def xorCipher (text key : List Nat) : List Nat := xorCipherAux key 0 text

/-- `ReceivedMessage` from `Node.h`. -/
structure ReceivedMessage (τ : Type) where
  id : Nat
  «from» : String
  payload : List Nat
  timeReceived : τ
  latency : τ
deriving DecidableEq

/-- `Node` from `Node.h`: a name and an append-only inbox. -/
structure Node (τ : Type) where
  name : String
  inbox : List (ReceivedMessage τ)
deriving DecidableEq

/-- `Node::onMessageReceived`: append a `ReceivedMessage` to the inbox. -/
def Node.onMessageReceived (nd : Node τ) (id : Nat) (fromName : String)
    (payload : List Nat) (timeReceived latency : τ) : Node τ :=
  { nd with inbox := nd.inbox ++ [⟨id, fromName, payload, timeReceived, latency⟩] }

/-- `Message` from `Message.h`. -/
structure Message (τ : Type) where
  id : Nat
  «from» : String
  «to» : String
  payload : List Nat
  cipherText : List Nat
  sendTime : τ
  deliverTime : τ
  delivered : Bool := false
  dropped : Bool := false
deriving DecidableEq

/-- The state of `Network` from `Network.h` (log file handle omitted:
logging is pure output). -/
structure Network (τ : Type) where
  baseLatency : τ
  jitter : τ
  dropProb : τ
  nodes : List (Node τ)
  nodeIndex : String → Option Nat
  inTransit : List (Message τ)
  droppedMessages : List (Message τ)
  nextMessageId : Nat
  deliveredCount : Nat
  totalLatency : τ
  draws : Nat → τ × τ
  drawIdx : Nat

variable {τ : Type} [LinearOrderedField τ]

/-- The `Network` constructor: parameters stored, all containers empty,
`nextMessageId_ = 1`, counters zero, RNG oracle attached. -/
def Network.init (baseLatency jitter dropProb : τ) (draws : Nat → τ × τ) : Network τ :=
  { baseLatency := baseLatency, jitter := jitter, dropProb := dropProb,
    nodes := [], nodeIndex := fun _ => none, inTransit := [], droppedMessages := [],
    nextMessageId := 1, deliveredCount := 0, totalLatency := 0,
    draws := draws, drawIdx := 0 }

/-- `Network::addNode`: push a fresh node and rebind the name index to its
position (`nodeIndex_[name] = nodes_.size() - 1`). -/
def Network.addNode (net : Network τ) (name : String) : Network τ :=
  { net with
    nodes := net.nodes ++ [⟨name, []⟩],
    nodeIndex := fun s => if s = name then some net.nodes.length else net.nodeIndex s }

/-- `Network::getNode`: look the name up in the index, `none` standing for
the null pointer. -/
def Network.getNode (net : Network τ) (name : String) : Option (Node τ) :=
  match net.nodeIndex name with
  | none => none
  | some i => net.nodes.get? i

/-- `Network::sendMessage`: draw the drop outcome (`uniform01_(rng_) <
dropProb_`) and the jitter, build the message with `deliverTime =
currentTime + baseLatency_ + jitter draw` (the value of `sampleLatency()`),
encrypt the payload, and classify it once into the dropped or the in-transit
set; `nextMessageId_++`. -/
def Network.sendMessage (net : Network τ) (fromName toName : String)
    (payload : List Nat) (currentTime : τ) : Network τ :=
  let u := (net.draws net.drawIdx).1
  let j := (net.draws net.drawIdx).2
  let drop : Bool := decide (u < net.dropProb)
  let msg : Message τ :=
    { id := net.nextMessageId, «from» := fromName, «to» := toName,
      payload := payload, cipherText := xorCipher payload encryptionKey,
      sendTime := currentTime, deliverTime := currentTime + (net.baseLatency + j),
      delivered := false, dropped := drop }
  if drop then
    { net with droppedMessages := net.droppedMessages ++ [msg],
               nextMessageId := net.nextMessageId + 1, drawIdx := net.drawIdx + 1 }
  else
    { net with inTransit := net.inTransit ++ [msg],
               nextMessageId := net.nextMessageId + 1, drawIdx := net.drawIdx + 1 }

/-- In-place update of a vector element at an index (the mutation of
`nodes_[idx]` or `mDrones[droneId]` through a reference); out of range it
is a no-op, which under the callers' bounds checks and the registry
invariant never happens. -/
def listUpdateAt {α : Type} : List α → Nat → (α → α) → List α
  | [], _, _ => []
  | a :: rest, 0, f => f a :: rest
  | a :: rest, i + 1, f => a :: listUpdateAt rest i f

/-- `Network::deliver`: look the recipient up; if absent return unchanged
(non-fatal failure, the message is simply forgotten); otherwise compute
`latency = deliverTime - sendTime`, bump the counters, decrypt, and append
the record to the recipient's inbox with `timeReceived = deliverTime`.
`currentTime` is used only for logging in the source and is unused here. -/
def Network.deliver (net : Network τ) (msg : Message τ) (_currentTime : τ) : Network τ :=
  match net.nodeIndex msg.«to» with
  | none => net
  | some i =>
    let latency := msg.deliverTime - msg.sendTime
    let plaintext := xorCipher msg.cipherText encryptionKey
    { net with
      deliveredCount := net.deliveredCount + 1,
      totalLatency := net.totalLatency + latency,
      nodes := listUpdateAt net.nodes i
        (fun nd => nd.onMessageReceived msg.id msg.«from» plaintext msg.deliverTime latency) }

/-- The loop of `Network::step`: walk the in-transit list, delivering due
messages and pushing the rest onto `remaining`. -/
def Network.stepAux (now : τ) : List (Message τ) → Network τ → List (Message τ) →
    Network τ × List (Message τ)
  | [], net, remaining => (net, remaining)
  | msg :: rest, net, remaining =>
    if msg.deliverTime ≤ now then Network.stepAux now rest (net.deliver msg now) remaining
    else Network.stepAux now rest net (remaining ++ [msg])

/-- `Network::step(currentTime)`: deliver every due in-transit message and
keep the remainder (`inTransit_.swap(remaining)`). -/
def Network.step (net : Network τ) (currentTime : τ) : Network τ :=
  let p := Network.stepAux currentTime net.inTransit net []
  { p.1 with inTransit := p.2 }

/-- The per-node mailbox dump printed by `Network::printSummary`, in node
registration order, each inbox in receipt order. -/
def mailboxDump (net : Network τ) : List (String × List (ReceivedMessage τ)) :=
  net.nodes.map fun nd => (nd.name, nd.inbox)

/-! ## Physics: `Vector2.h`, `World.h`, `Drone.h` / `Drone.cpp`, over `ℝ` -/

/-- `Vector2` from `Vector2.h`. -/
structure Vector2 where
  x : ℝ
  y : ℝ

/-- `Vector2::operator+`. -/
def Vector2.add (a b : Vector2) : Vector2 := ⟨a.x + b.x, a.y + b.y⟩

instance : Add Vector2 := ⟨Vector2.add⟩

/-- `Vector2::operator*(double)`. -/
def Vector2.smul (a : Vector2) (s : ℝ) : Vector2 := ⟨a.x * s, a.y * s⟩

/-- `Vector2::length`: `sqrt(x*x + y*y)`. -/
noncomputable def Vector2.length (a : Vector2) : ℝ := Real.sqrt (a.x * a.x + a.y * a.y)

/-- `Vector2::normalized`: the zero vector maps to itself. -/
noncomputable def Vector2.normalized (a : Vector2) : Vector2 :=
  if a.length = 0 then ⟨0, 0⟩ else ⟨a.x / a.length, a.y / a.length⟩

/-- `World` from `World.h`. -/
structure World where
  gravity : Vector2
  width : ℝ
  height : ℝ

/-- `DroneParams` from `Drone.h`. -/
structure DroneParams where
  mass : ℝ
  maxThrust : ℝ
  maxSpeed : ℝ

/-- `Drone` state from `Drone.h`; the constructor zeroes velocity and
thrust. -/
structure Drone where
  mId : Nat
  mParameters : DroneParams
  mPosition : Vector2
  mVelocity : Vector2
  mThrust : Vector2

/-- The `Drone` constructor. -/
def Drone.create (id : Nat) (parameters : DroneParams) (startPos : Vector2) : Drone :=
  { mId := id, mParameters := parameters, mPosition := startPos,
    mVelocity := ⟨0, 0⟩, mThrust := ⟨0, 0⟩ }

/-- `Drone::setThrustDirection`: normalize and scale to `maxThrust`. -/
noncomputable def Drone.setThrustDirection (d : Drone) (direction : Vector2) : Drone :=
  { d with mThrust := direction.normalized.smul d.mParameters.maxThrust }

/-- `Drone::setThrustForce`: keep the force if its magnitude is zero or at
most `maxThrust`, otherwise rescale it to magnitude `maxThrust`. -/
noncomputable def Drone.setThrustForce (d : Drone) (force : Vector2) : Drone :=
  let mag := force.length
  if mag = 0 ∨ mag ≤ d.mParameters.maxThrust then { d with mThrust := force }
  else { d with mThrust := force.smul (d.mParameters.maxThrust / mag) }

/-- `Drone::clearThrust`. -/
def Drone.clearThrust (d : Drone) : Drone := { d with mThrust := ⟨0, 0⟩ }

/-- Lines 95-111 of `Drone.cpp` (`Drone::update` before the boundary
conditions): semi-implicit Euler with the optional speed clamp, returning
the new position and velocity before world clamping. -/
noncomputable def Drone.integrate (d : Drone) (dt : ℝ) (world : World) : Vector2 × Vector2 :=
  let gravityForce := world.gravity.smul d.mParameters.mass
  let totalForce := d.mThrust + gravityForce
  let acceleration := totalForce.smul (1 / d.mParameters.mass)
  let v := d.mVelocity + acceleration.smul dt
  let speed := v.length
  let v :=
    if 0 < d.mParameters.maxSpeed ∧ d.mParameters.maxSpeed < speed then
      v.smul (d.mParameters.maxSpeed / speed)
    else v
  (d.mPosition + v.smul dt, v)

/-- Lines 113-117 of `Drone.cpp`: the four sequential boundary conditions.
Each `if` reads and writes only its own axis's position and velocity
scalars (`mPosition.x`/`mVelocity.x` for the two x-tests,
`mPosition.y`/`mVelocity.y` for the two y-tests), so the chain is recorded
per axis: `q1`/`q2` are the `< 0` clamps, `q3`/`q4` the `> extent` clamps
applied to their results, in the source's test order and with the same
dataflow. -/
noncomputable def clampToWorld (world : World) (pv : Vector2 × Vector2) : Vector2 × Vector2 :=
  let q1 : ℝ × ℝ := if pv.1.x < 0 then (0, 0) else (pv.1.x, pv.2.x)
  let q2 : ℝ × ℝ := if pv.1.y < 0 then (0, 0) else (pv.1.y, pv.2.y)
  let q3 : ℝ × ℝ := if world.width < q1.1 then (world.width, 0) else q1
  let q4 : ℝ × ℝ := if world.height < q2.1 then (world.height, 0) else q2
  (⟨q3.1, q4.1⟩, ⟨q3.2, q4.2⟩)

/-- `Drone::update`: integration followed by the boundary conditions. -/
noncomputable def Drone.update (d : Drone) (dt : ℝ) (world : World) : Drone :=
  let pv := clampToWorld world (d.integrate dt world)
  { d with mPosition := pv.1, mVelocity := pv.2 }

/-! ## Orchestrator: `Simulator.h` / `Simulator.cpp`, over `ℝ`

`sendDroneStatus` renders position and velocity into a fixed-precision
status string; the byte content of that rendering is console formatting
(out of the state model), so the theorems are parametric in the formatting
function `fmt : Drone → List Nat` used as the telemetry payload. -/

/-- `Simulator` state from `Simulator.h`. -/
structure Simulator where
  mWorld : World
  mDrones : List Drone
  mComms : Network ℝ
  mSimTime : ℝ
  mNextReportTime : ℝ
  mReportInterval : ℝ

/-- The `Simulator` constructor: network `(baseLatency 0.5, jitter 0.2,
dropProbability 0.15)` with the RNG oracle `draws`, time zero,
`mNextReportTime = 0.5`, `mReportInterval = 0.5`, and the `"HQ"` node
registered. -/
noncomputable def Simulator.init (world : World) (draws : Nat → ℝ × ℝ) : Simulator :=
  { mWorld := world,
    mDrones := [],
    mComms := (Network.init (1 / 2) (1 / 5) (3 / 20) draws).addNode "HQ",
    mSimTime := 0,
    mNextReportTime := 1 / 2,
    mReportInterval := 1 / 2 }

/-- `Simulator::addDrone`: id = index, register node `"Drone<id>"`, return
the id alongside the new state. -/
noncomputable def Simulator.addDrone (sim : Simulator) (parameters : DroneParams)
    (startPos : Vector2) : Nat × Simulator :=
  let id := sim.mDrones.length
  let nodeName := "Drone" ++ toString id
  (id, { sim with
          mDrones := sim.mDrones ++ [Drone.create id parameters startPos],
          mComms := sim.mComms.addNode nodeName })

/-- Bounds-checked in-place update of `mDrones[droneId]`; out-of-range ids
are a silent no-op, as in the dispatch helpers of `Simulator.cpp`. -/
def Simulator.withDrone (sim : Simulator) (droneId : Nat) (f : Drone → Drone) : Simulator :=
  if droneId < sim.mDrones.length then
    { sim with mDrones := listUpdateAt sim.mDrones droneId f }
  else sim

/-- `Simulator::clearDroneThrust`. -/
def Simulator.clearDroneThrust (sim : Simulator) (droneId : Nat) : Simulator :=
  sim.withDrone droneId Drone.clearThrust

/-- `Simulator::setDroneThrustForce`. -/
noncomputable def Simulator.setDroneThrustForce (sim : Simulator) (droneId : Nat)
    (force : Vector2) : Simulator :=
  sim.withDrone droneId (fun d => d.setThrustForce force)

/-- `Simulator::sendDroneStatus`: send `fmt d` from `"Drone<id>"` to
`"HQ"` at `currentTime`. -/
noncomputable def sendDroneStatus (fmt : Drone → List Nat) (net : Network ℝ) (d : Drone)
    (currentTime : ℝ) : Network ℝ :=
  net.sendMessage ("Drone" ++ toString d.mId) "HQ" (fmt d) currentTime

/-- `Simulator::step(dt)`: advance the clock, update every drone's physics,
then (if the new clock has reached `mNextReportTime`) send one status
report per drone at the new clock and bump `mNextReportTime` by
`mReportInterval` once, and finally advance the network at the new clock. -/
noncomputable def Simulator.step (fmt : Drone → List Nat) (sim : Simulator) (dt : ℝ) :
    Simulator :=
  let t := sim.mSimTime + dt
  let drones := sim.mDrones.map fun d => d.update dt sim.mWorld
  let comms :=
    if sim.mNextReportTime ≤ t then
      drones.foldl (fun net d => sendDroneStatus fmt net d t) sim.mComms
    else sim.mComms
  let nextReport :=
    if sim.mNextReportTime ≤ t then sim.mNextReportTime + sim.mReportInterval
    else sim.mNextReportTime
  { sim with
    mSimTime := t,
    mDrones := drones,
    mComms := comms.step t,
    mNextReportTime := nextReport }

/-! ## Derived descriptions used in statements -/

/-- The `ReceivedRecord` that `Network::deliver` appends for a message:
decrypted payload, `timeReceived = deliverTime`, `latency = deliverTime -
sendTime`. -/
def deliverRecord (m : Message τ) : ReceivedMessage τ :=
  ⟨m.id, m.«from», xorCipher m.cipherText encryptionKey, m.deliverTime,
   m.deliverTime - m.sendTime⟩

/-- Folding `deliver` over a message list, delivering exactly the due ones:
the delivery pass inside `Network::step`. -/
def deliverAll (now : τ) (msgs : List (Message τ)) (net : Network τ) : Network τ :=
  msgs.foldl (fun acc m => if m.deliverTime ≤ now then acc.deliver m now else acc) net

/-- The message record that `Network::sendMessage` builds from `net`'s
current counter and RNG draws. -/
def mkSentMessage (net : Network τ) (fromName toName : String) (p : List Nat)
    (time : τ) : Message τ :=
  { id := net.nextMessageId, «from» := fromName, «to» := toName, payload := p,
    cipherText := xorCipher p encryptionKey, sendTime := time,
    deliverTime := time + (net.baseLatency + (net.draws net.drawIdx).2),
    delivered := false, dropped := decide ((net.draws net.drawIdx).1 < net.dropProb) }

/-- The node-index invariant every reachable network satisfies: the name
index only stores positions inside the node vector. -/
def wfIndex (net : Network τ) : Prop :=
  ∀ s i, net.nodeIndex s = some i → i < net.nodes.length

/-- One call of the network's public API, for stating whole-trace
invariants. -/
inductive NetOp (τ : Type) where
  | addNode (name : String)
  | send (fromName toName : String) (payload : List Nat) (t : τ)
  | advance (t : τ)

/-- Run one API call. -/
def runOp (net : Network τ) : NetOp τ → Network τ
  | .addNode s => net.addNode s
  | .send f t p time => net.sendMessage f t p time
  | .advance t => net.step t

/-- Run a call sequence. -/
def runOps (net : Network τ) : List (NetOp τ) → Network τ
  | [] => net
  | op :: rest => runOps (runOp net op) rest

/-- "No delivery failed its recipient lookup": at every `advance` of the
trace, each due in-transit message's recipient is registered. -/
def lookupsOK (net : Network τ) : List (NetOp τ) → Prop
  | [] => True
  | op :: rest =>
    (match op with
     | .advance t => ∀ m ∈ net.inTransit, m.deliverTime ≤ t → (net.nodeIndex m.«to»).isSome
     | _ => True) ∧ lookupsOK (runOp net op) rest

/-- The number of `send` calls in a trace. -/
def countSends : List (NetOp τ) → Nat
  | [] => 0
  | NetOp.send _ _ _ _ :: rest => countSends rest + 1
  | _ :: rest => countSends rest

/-! ## Concrete scenario data (deterministic network: `dropProbability = 0`,
`baseLatency = 1`, `jitterAmplitude = 0`, RNG oracle constantly `(0, 0)`) -/

/-- The deterministic network of Scenarios B and C. -/
def detNet : Network ℚ := Network.init 1 0 0 (fun _ => (0, 0))

/-- Scenario C state: node `"A"` registered, one message sent to the
unregistered `"Ghost"` at `t = 0`. -/
def ghostNet : Network ℚ := (detNet.addNode "A").sendMessage "A" "Ghost" [104, 105] 0

/-- A network with just `"B"` registered, for the delivery round-trip
witness. -/
def netB : Network ℚ := detNet.addNode "B"

/-- A concrete wire message to `"B"` whose cipher text is the encryption of
its payload, as `sendMessage` produces. -/
def msgHi : Message ℚ :=
  { id := 1, «from» := "A", «to» := "B", payload := [104, 105],
    cipherText := xorCipher [104, 105] encryptionKey,
    sendTime := 0, deliverTime := 1, delivered := false, dropped := false }

/-- A concrete trace: register `"A"` and `"B"`, send one message at `t = 0`. -/
def convOps : List (NetOp ℚ) :=
  [NetOp.addNode "A", NetOp.addNode "B", NetOp.send "A" "B" [104, 105] 0]

/-- The deterministic network with `"A"` and `"B"` registered. -/
def convNet : Network ℚ := (detNet.addNode "A").addNode "B"

/-- Scenario A world: gravity `(0, -9.8)`, width = height = 100. -/
noncomputable def world100 : World := { gravity := ⟨0, -9.8⟩, width := 100, height := 100 }

/-- Scenario A agent: mass 1, maxThrust 10, maxSpeed 0 (unlimited), start
`(50, 50)`. -/
noncomputable def droneA : Drone := Drone.create 0 ⟨1, 10, 0⟩ ⟨50, 50⟩

/-! ## Helper lemmas -/

theorem xorCipherAux_involutive (key : List Nat) (i : Nat) (l : List Nat) :
    xorCipherAux key i (xorCipherAux key i l) = l := by
  induction l generalizing i with
  | nil => rfl
  | cons c rest ih =>
      simp only [xorCipherAux, Nat.xor_assoc, Nat.xor_self, Nat.xor_zero, ih]

theorem xorCipher_involutive (key text : List Nat) :
    xorCipher (xorCipher text key) key = text :=
  xorCipherAux_involutive key 0 text

theorem deliver_eq_of_none {net : Network τ} {m : Message τ} (t : τ)
    (h : net.nodeIndex m.«to» = none) : net.deliver m t = net := by
  unfold Network.deliver
  rw [h]

theorem deliver_eq_of_some {net : Network τ} {m : Message τ} {i : Nat} (t : τ)
    (h : net.nodeIndex m.«to» = some i) :
    net.deliver m t =
      { net with
        deliveredCount := net.deliveredCount + 1,
        totalLatency := net.totalLatency + (m.deliverTime - m.sendTime),
        nodes := listUpdateAt net.nodes i
          (fun nd => { nd with inbox := nd.inbox ++ [deliverRecord m] }) } := by
  unfold Network.deliver
  rw [h]
  rfl

theorem deliver_inTransit (net : Network τ) (m : Message τ) (t : τ) :
    (net.deliver m t).inTransit = net.inTransit := by
  unfold Network.deliver
  cases net.nodeIndex m.«to» <;> rfl

theorem deliver_droppedMessages (net : Network τ) (m : Message τ) (t : τ) :
    (net.deliver m t).droppedMessages = net.droppedMessages := by
  unfold Network.deliver
  cases net.nodeIndex m.«to» <;> rfl

theorem deliver_nodeIndex (net : Network τ) (m : Message τ) (t : τ) :
    (net.deliver m t).nodeIndex = net.nodeIndex := by
  unfold Network.deliver
  cases net.nodeIndex m.«to» <;> rfl

theorem deliver_nextMessageId (net : Network τ) (m : Message τ) (t : τ) :
    (net.deliver m t).nextMessageId = net.nextMessageId := by
  unfold Network.deliver
  cases net.nodeIndex m.«to» <;> rfl

theorem deliver_time_irrelevant (net : Network τ) (m : Message τ) (t t' : τ) :
    net.deliver m t = net.deliver m t' := rfl

theorem listUpdateAt_get?_self (l : List (Node τ)) (i : Nat) (f : Node τ → Node τ) :
    (listUpdateAt l i f).get? i = (l.get? i).map f := by
  induction l generalizing i with
  | nil => cases i <;> rfl
  | cons nd rest ih =>
      cases i with
      | zero => rfl
      | succ i => simpa [listUpdateAt] using ih i

theorem listUpdateAt_get?_ne (l : List (Node τ)) (i j : Nat) (f : Node τ → Node τ)
    (h : j ≠ i) : (listUpdateAt l i f).get? j = l.get? j := by
  induction l generalizing i j with
  | nil => cases i <;> rfl
  | cons nd rest ih =>
      cases i with
      | zero => cases j with
          | zero => exact absurd rfl h
          | succ j => rfl
      | succ i =>
          cases j with
          | zero => rfl
          | succ j => simpa [listUpdateAt] using ih i j (fun hji => h (by rw [hji]))

theorem stepAux_spec (now : τ) (msgs : List (Message τ)) :
    ∀ net rem, Network.stepAux now msgs net rem =
      (deliverAll now msgs net, rem ++ msgs.filter (fun m => decide (now < m.deliverTime))) := by
  induction msgs with
  | nil => intro net rem; simp [Network.stepAux, deliverAll]
  | cons m rest ih =>
      intro net rem
      by_cases h : m.deliverTime ≤ now
      · rw [Network.stepAux, if_pos h, ih]
        have hnot : ¬ now < m.deliverTime := not_lt.mpr h
        simp [deliverAll, h, hnot]
      · rw [Network.stepAux, if_neg h, ih]
        have hlt : now < m.deliverTime := not_le.mp h
        simp [deliverAll, h, hlt]

theorem step_eq (net : Network τ) (now : τ) :
    net.step now =
      { deliverAll now net.inTransit net with
        inTransit := net.inTransit.filter (fun m => decide (now < m.deliverTime)) } := by
  unfold Network.step
  rw [stepAux_spec]
  rfl

theorem deliverAll_field {α : Type} (g : Network τ → α) (now : τ)
    (hg : ∀ (net : Network τ) m, g (net.deliver m now) = g net) :
    ∀ (msgs : List (Message τ)) (net : Network τ), g (deliverAll now msgs net) = g net := by
  intro msgs
  induction msgs with
  | nil => intro net; rfl
  | cons m rest ih =>
      intro net
      by_cases h : m.deliverTime ≤ now <;> simp [deliverAll, h] at ih ⊢ <;>
        rw [ih] <;> try rw [hg]

theorem deliverAll_cons (now : τ) (m : Message τ) (rest : List (Message τ))
    (net : Network τ) :
    deliverAll now (m :: rest) net =
      deliverAll now rest (if m.deliverTime ≤ now then net.deliver m now else net) := rfl

/-- The due messages of `msgs` whose recipient lookup succeeds in `net`. -/
def deliveredSet (net : Network τ) (now : τ) (msgs : List (Message τ)) : List (Message τ) :=
  msgs.filter (fun m => decide (m.deliverTime ≤ now) && (net.nodeIndex m.«to»).isSome)

theorem deliverAll_nodes_get? (now : τ) (msgs : List (Message τ)) :
    ∀ (net : Network τ) (i : Nat),
      (deliverAll now msgs net).nodes.get? i =
        (net.nodes.get? i).map (fun nd =>
          { nd with inbox := nd.inbox ++
              ((msgs.filter (fun m => decide (m.deliverTime ≤ now)
                  && decide (net.nodeIndex m.«to» = some i))).map deliverRecord) }) := by
  induction msgs with
  | nil =>
      intro net i
      show net.nodes.get? i
        = (net.nodes.get? i).map (fun nd => { nd with inbox := nd.inbox ++ [] })
      have hid : (fun nd : Node τ => { nd with inbox := nd.inbox ++ [] }) = id := by
        funext nd
        cases nd
        simp
      rw [hid, Option.map_id]
      rfl
  | cons m rest ih =>
      intro net i
      by_cases hdue : m.deliverTime ≤ now
      · cases h : net.nodeIndex m.«to» with
        | none =>
            rw [deliverAll_cons, if_pos hdue, deliver_eq_of_none now h, ih]
            simp [List.filter_cons, hdue, h]
        | some k =>
            rw [deliverAll_cons, if_pos hdue, deliver_eq_of_some now h, ih]
            by_cases hik : i = k
            · subst hik
              rw [show ({ net with
                    deliveredCount := net.deliveredCount + 1,
                    totalLatency := net.totalLatency + (m.deliverTime - m.sendTime),
                    nodes := listUpdateAt net.nodes i
                      (fun nd => { nd with inbox := nd.inbox ++ [deliverRecord m] }) } :
                  Network τ).nodes = listUpdateAt net.nodes i
                      (fun nd => { nd with inbox := nd.inbox ++ [deliverRecord m] }) from rfl,
                listUpdateAt_get?_self]
              cases hg : net.nodes.get? i with
              | none => simp [hg]
              | some nd => simp [hg, List.filter_cons, hdue, h, List.append_assoc]
            · rw [show ({ net with
                    deliveredCount := net.deliveredCount + 1,
                    totalLatency := net.totalLatency + (m.deliverTime - m.sendTime),
                    nodes := listUpdateAt net.nodes k
                      (fun nd => { nd with inbox := nd.inbox ++ [deliverRecord m] }) } :
                  Network τ).nodes = listUpdateAt net.nodes k
                      (fun nd => { nd with inbox := nd.inbox ++ [deliverRecord m] }) from rfl,
                listUpdateAt_get?_ne _ _ _ _ hik]
              have hki : ¬ (some k = some i) := fun hc => hik (Option.some.inj hc).symm
              simp [List.filter_cons, hdue, h, hki]
      · rw [deliverAll_cons, if_neg hdue, ih]
        simp [List.filter_cons, hdue]

theorem deliverAll_deliveredCount (now : τ) (msgs : List (Message τ)) :
    ∀ net : Network τ,
      (deliverAll now msgs net).deliveredCount =
        net.deliveredCount + (deliveredSet net now msgs).length := by
  induction msgs with
  | nil => intro net; simp [deliverAll, deliveredSet]
  | cons m rest ih =>
      intro net
      by_cases hdue : m.deliverTime ≤ now
      · cases h : net.nodeIndex m.«to» with
        | none =>
            rw [deliverAll_cons, if_pos hdue, deliver_eq_of_none now h, ih]
            simp [deliveredSet, List.filter_cons, hdue, h]
        | some k =>
            rw [deliverAll_cons, if_pos hdue, deliver_eq_of_some now h, ih]
            simp [deliveredSet, List.filter_cons, hdue, h]
            omega
      · rw [deliverAll_cons, if_neg hdue, ih]
        simp [deliveredSet, List.filter_cons, hdue]

theorem deliverAll_totalLatency (now : τ) (msgs : List (Message τ)) :
    ∀ net : Network τ,
      (deliverAll now msgs net).totalLatency =
        net.totalLatency +
          ((deliveredSet net now msgs).map (fun m => m.deliverTime - m.sendTime)).sum := by
  induction msgs with
  | nil => intro net; simp [deliverAll, deliveredSet]
  | cons m rest ih =>
      intro net
      by_cases hdue : m.deliverTime ≤ now
      · cases h : net.nodeIndex m.«to» with
        | none =>
            rw [deliverAll_cons, if_pos hdue, deliver_eq_of_none now h, ih]
            simp [deliveredSet, List.filter_cons, hdue, h]
        | some k =>
            rw [deliverAll_cons, if_pos hdue, deliver_eq_of_some now h, ih]
            simp [deliveredSet, List.filter_cons, hdue, h]
            ring
      · rw [deliverAll_cons, if_neg hdue, ih]
        simp [deliveredSet, List.filter_cons, hdue]

theorem deliver_dropped_set (net : Network τ) (d : List (Message τ)) (m : Message τ)
    (t : τ) :
    Network.deliver { net with droppedMessages := d } m t =
      { net.deliver m t with droppedMessages := d } := by
  unfold Network.deliver
  cases h : net.nodeIndex m.«to» <;> simp [h]

theorem deliverAll_dropped_set (now : τ) (msgs : List (Message τ)) :
    ∀ (net : Network τ) (d : List (Message τ)),
      deliverAll now msgs { net with droppedMessages := d } =
        { deliverAll now msgs net with droppedMessages := d } := by
  induction msgs with
  | nil => intro net d; rfl
  | cons m rest ih =>
      intro net d
      by_cases hdue : m.deliverTime ≤ now
      · rw [deliverAll_cons, if_pos hdue, deliver_dropped_set, ih, deliverAll_cons, if_pos hdue]
      · rw [deliverAll_cons, if_neg hdue, ih, deliverAll_cons, if_neg hdue]

theorem deliverAll_eq_self (now : τ) (msgs : List (Message τ)) :
    ∀ net : Network τ,
      (∀ m ∈ msgs, m.deliverTime ≤ now → net.nodeIndex m.«to» = none) →
      deliverAll now msgs net = net := by
  induction msgs with
  | nil => intro net _; rfl
  | cons m rest ih =>
      intro net h
      by_cases hdue : m.deliverTime ≤ now
      · rw [deliverAll_cons, if_pos hdue,
          deliver_eq_of_none now (h m (List.mem_cons_self m rest) hdue)]
        exact ih net fun m' hm' => h m' (List.mem_cons_of_mem m hm')
      · rw [deliverAll_cons, if_neg hdue]
        exact ih net fun m' hm' => h m' (List.mem_cons_of_mem m hm')

theorem sendMessage_of_drop {net : Network τ} {f t' : String} {p : List Nat} {time : τ}
    (h : (net.draws net.drawIdx).1 < net.dropProb) :
    net.sendMessage f t' p time =
      { net with droppedMessages := net.droppedMessages ++ [mkSentMessage net f t' p time],
                 nextMessageId := net.nextMessageId + 1, drawIdx := net.drawIdx + 1 } := by
  unfold Network.sendMessage mkSentMessage
  simp [h]

theorem sendMessage_of_not_drop {net : Network τ} {f t' : String} {p : List Nat} {time : τ}
    (h : ¬ (net.draws net.drawIdx).1 < net.dropProb) :
    net.sendMessage f t' p time =
      { net with inTransit := net.inTransit ++ [mkSentMessage net f t' p time],
                 nextMessageId := net.nextMessageId + 1, drawIdx := net.drawIdx + 1 } := by
  unfold Network.sendMessage mkSentMessage
  simp [h]

theorem step_inTransit (net : Network τ) (now : τ) :
    (net.step now).inTransit = net.inTransit.filter (fun m => decide (now < m.deliverTime)) := by
  rw [step_eq]

theorem step_droppedMessages (net : Network τ) (now : τ) :
    (net.step now).droppedMessages = net.droppedMessages := by
  rw [step_eq]
  exact deliverAll_field (fun n => n.droppedMessages) now
    (fun n m => deliver_droppedMessages n m now) net.inTransit net

theorem step_nodeIndex (net : Network τ) (now : τ) :
    (net.step now).nodeIndex = net.nodeIndex := by
  rw [step_eq]
  exact deliverAll_field (fun n => n.nodeIndex) now
    (fun n m => deliver_nodeIndex n m now) net.inTransit net

theorem step_nextMessageId (net : Network τ) (now : τ) :
    (net.step now).nextMessageId = net.nextMessageId := by
  rw [step_eq]
  exact deliverAll_field (fun n => n.nextMessageId) now
    (fun n m => deliver_nextMessageId n m now) net.inTransit net

theorem step_deliveredCount (net : Network τ) (now : τ) :
    (net.step now).deliveredCount =
      net.deliveredCount + (deliveredSet net now net.inTransit).length := by
  rw [step_eq]
  exact deliverAll_deliveredCount now net.inTransit net

theorem step_totalLatency (net : Network τ) (now : τ) :
    (net.step now).totalLatency =
      net.totalLatency +
        ((deliveredSet net now net.inTransit).map (fun m => m.deliverTime - m.sendTime)).sum := by
  rw [step_eq]
  exact deliverAll_totalLatency now net.inTransit net

theorem step_nodes_get? (net : Network τ) (now : τ) (i : Nat) :
    (net.step now).nodes.get? i =
      (net.nodes.get? i).map (fun nd =>
        { nd with inbox := nd.inbox ++
            ((net.inTransit.filter (fun m => decide (m.deliverTime ≤ now)
                && decide (net.nodeIndex m.«to» = some i))).map deliverRecord) }) := by
  rw [step_eq]
  exact deliverAll_nodes_get? now net.inTransit net i

theorem step_dropped_set (net : Network τ) (d : List (Message τ)) (now : τ) :
    Network.step { net with droppedMessages := d } now =
      { net.step now with droppedMessages := d } := by
  rw [step_eq, step_eq]
  show ({ deliverAll now net.inTransit { net with droppedMessages := d } with
          inTransit := net.inTransit.filter (fun m => decide (now < m.deliverTime)) } :
        Network τ) = _
  rw [deliverAll_dropped_set]

theorem length_filter_due (now : τ) (msgs : List (Message τ)) :
    (msgs.filter (fun m => decide (m.deliverTime ≤ now))).length
      + (msgs.filter (fun m => decide (now < m.deliverTime))).length = msgs.length := by
  induction msgs with
  | nil => rfl
  | cons m rest ih =>
      by_cases h : m.deliverTime ≤ now
      · have h2 : ¬ now < m.deliverTime := not_lt.mpr h
        simp only [List.filter_cons, h, h2, decide_True, decide_False, List.length_cons,
          decide_eq_true_eq, if_pos, if_neg, not_false_iff]
        simp [h, h2]
        omega
      · have h2 : now < m.deliverTime := not_le.mp h
        simp [List.filter_cons, h, h2]
        omega

/-- Running a trace with successful lookups adds exactly one unit per send
to `delivered + dropped + inTransit`. -/
theorem conservation_aux (ops : List (NetOp ℚ)) :
    ∀ net : Network ℚ, lookupsOK net ops →
      (runOps net ops).deliveredCount + (runOps net ops).droppedMessages.length
          + (runOps net ops).inTransit.length
        = net.deliveredCount + net.droppedMessages.length + net.inTransit.length
          + countSends ops := by
  induction ops with
  | nil => intro net _; simp [runOps, countSends]
  | cons op rest ih =>
      intro net hok
      rcases hok with ⟨hop, hrest⟩
      have hmain := ih (runOp net op) hrest
      cases op with
      | addNode s =>
          simpa [runOps, runOp, Network.addNode, countSends] using hmain
      | send f t' p time =>
          have hsend : (net.sendMessage f t' p time).deliveredCount
                + (net.sendMessage f t' p time).droppedMessages.length
                + (net.sendMessage f t' p time).inTransit.length
              = net.deliveredCount + net.droppedMessages.length + net.inTransit.length
                + 1 := by
            by_cases hb : (net.draws net.drawIdx).1 < net.dropProb
            · rw [sendMessage_of_drop hb]
              simp
              omega
            · rw [sendMessage_of_not_drop hb]
              simp
              omega
          have : runOps net (NetOp.send f t' p time :: rest)
              = runOps (net.sendMessage f t' p time) rest := rfl
          rw [this] at *
          rw [show runOp net (NetOp.send f t' p time) = net.sendMessage f t' p time from rfl]
            at hmain
          rw [hmain, hsend, countSends]
          omega
      | advance t =>
          replace hop : ∀ m ∈ net.inTransit,
              m.deliverTime ≤ t → (net.nodeIndex m.«to»).isSome = true := hop
          have hstep : (net.step t).deliveredCount + (net.step t).droppedMessages.length
                + (net.step t).inTransit.length
              = net.deliveredCount + net.droppedMessages.length + net.inTransit.length := by
            rw [step_deliveredCount, step_droppedMessages, step_inTransit]
            have hds : deliveredSet net t net.inTransit
                = net.inTransit.filter (fun m => decide (m.deliverTime ≤ t)) := by
              unfold deliveredSet
              apply List.filter_congr
              intro m hm
              by_cases hmd : m.deliverTime ≤ t
              · simp [hmd, hop m hm hmd]
              · simp [hmd]
            rw [hds]
            have := length_filter_due t net.inTransit
            omega
          have : runOps net (NetOp.advance t :: rest) = runOps (net.step t) rest := rfl
          rw [this]
          rw [show runOp net (NetOp.advance t) = net.step t from rfl] at hmain
          rw [hmain, hstep]
          rfl

/-! ## Claim theorems -/

/-- C1: `advance(now)` removes exactly the in-transit messages with
`deliverTime ≤ now` (delivering each to its recipient's mailbox, or
discarding it when the recipient name is unregistered), keeps every
not-yet-due message in transit unchanged, and neither reads nor modifies
the dropped set; hence a non-dropped message is visible in a mailbox no
earlier than its `deliverTime` and no later than the first `advance(now)`
with `now ≥ deliverTime`. -/
theorem advance_delivery_spec (net : Network ℚ) (now : ℚ) (d : List (Message ℚ)) :
    ((net.step now).inTransit
        = net.inTransit.filter (fun m => decide (now < m.deliverTime)))
    ∧ (∀ m ∈ net.inTransit, m.deliverTime ≤ now → m ∉ (net.step now).inTransit)
    ∧ (∀ m ∈ net.inTransit, now < m.deliverTime → m ∈ (net.step now).inTransit)
    ∧ ((net.step now).droppedMessages = net.droppedMessages)
    ∧ (Network.step { net with droppedMessages := d } now
        = { net.step now with droppedMessages := d })
    ∧ (∀ i nd, net.nodes.get? i = some nd →
        (net.step now).nodes.get? i = some { nd with inbox := nd.inbox ++
            ((net.inTransit.filter (fun m => decide (m.deliverTime ≤ now)
                && decide (net.nodeIndex m.«to» = some i))).map deliverRecord) }) := by
  refine ⟨step_inTransit net now, ?_, ?_, step_droppedMessages net now,
    step_dropped_set net d now, ?_⟩
  · intro m _ hdue hmem
    rw [step_inTransit] at hmem
    rcases List.mem_filter.mp hmem with ⟨-, hkeep⟩
    exact absurd (of_decide_eq_true hkeep) (not_lt.mpr hdue)
  · intro m hm hlate
    rw [step_inTransit]
    exact List.mem_filter.mpr ⟨hm, decide_eq_true hlate⟩
  · intro i nd hnd
    rw [step_nodes_get?, hnd]
    rfl

/-- C3: when every due in-transit message's recipient lookup fails, the
`advance` pass is non-fatal and atomic: delivered count, cumulative
latency and every node's mailbox are unchanged, the due messages are
discarded, and the dropped set is untouched. -/
theorem unknown_recipient_nonfatal (net : Network ℚ) (now : ℚ)
    (h : ∀ m ∈ net.inTransit, m.deliverTime ≤ now → net.nodeIndex m.«to» = none) :
    (net.step now).deliveredCount = net.deliveredCount
    ∧ (net.step now).totalLatency = net.totalLatency
    ∧ (net.step now).nodes = net.nodes
    ∧ (net.step now).inTransit = net.inTransit.filter (fun m => decide (now < m.deliverTime))
    ∧ (net.step now).droppedMessages = net.droppedMessages := by
  rw [step_eq, deliverAll_eq_self now net.inTransit net h]
  exact ⟨rfl, rfl, rfl, rfl, rfl⟩

/-- Witness for C3 — Scenario C: `send("A", "Ghost", payload, 0)` on the
deterministic network, then `advance(1)`: the delivered count and all
mailboxes are unchanged, the message is discarded. -/
theorem unknown_recipient_nonfatal_scenarioC :
    (ghostNet.step 1).deliveredCount = ghostNet.deliveredCount
    ∧ (ghostNet.step 1).totalLatency = ghostNet.totalLatency
    ∧ (ghostNet.step 1).nodes = ghostNet.nodes
    ∧ (ghostNet.step 1).inTransit
        = ghostNet.inTransit.filter (fun m => decide ((1 : ℚ) < m.deliverTime))
    ∧ (ghostNet.step 1).droppedMessages = ghostNet.droppedMessages :=
  unknown_recipient_nonfatal ghostNet 1 (by
    have hnd : ¬ ((detNet.addNode "A").draws (detNet.addNode "A").drawIdx).1
        < (detNet.addNode "A").dropProb := by
      norm_num [detNet, Network.init, Network.addNode]
    have hg : ghostNet.inTransit
        = [mkSentMessage (detNet.addNode "A") "A" "Ghost" [104, 105] 0] := by
      rw [ghostNet, sendMessage_of_not_drop hnd]
      rfl
    intro m hm hdue
    rw [hg, List.mem_singleton] at hm
    subst hm
    rw [ghostNet, sendMessage_of_not_drop hnd]
    show (detNet.addNode "A").nodeIndex "Ghost" = none
    norm_num [detNet, Network.init, Network.addNode]
    intro h
    exact absurd h (by decide))

/-- C10: a delivered record's `timeReceived` is the message's scheduled
`deliverTime` (not the `advance` time) and its latency is `deliverTime -
sendTime`; `deliver` does not depend on the time of the `advance` call,
and the delivered count and cumulative latency change only by the number
of due, deliverable messages and the sum of their scheduled latencies. -/
theorem receipt_time_spec (net : Network ℚ) (now now' : ℚ) :
    (∀ m : Message ℚ, net.deliver m now = net.deliver m now')
    ∧ (∀ (m : Message ℚ) (i : Nat), net.nodeIndex m.«to» = some i →
        (net.deliver m now).nodes = listUpdateAt net.nodes i (fun nd =>
          { nd with inbox := nd.inbox ++
              [⟨m.id, m.«from», xorCipher m.cipherText encryptionKey,
                m.deliverTime, m.deliverTime - m.sendTime⟩] }))
    ∧ ((net.step now).deliveredCount
        = net.deliveredCount + (deliveredSet net now net.inTransit).length)
    ∧ ((net.step now).totalLatency
        = net.totalLatency
          + ((deliveredSet net now net.inTransit).map
              (fun m => m.deliverTime - m.sendTime)).sum) := by
  refine ⟨fun m => deliver_time_irrelevant net m now now', ?_,
    step_deliveredCount net now, step_totalLatency net now⟩
  intro m i hi
  rw [deliver_eq_of_some now hi]
  rfl

/-- C5: the byte-wise XOR obfuscation with the fixed cyclically-reused key
is an involution on every payload, messages are placed on the wire with
`cipherText = xorCipher(payload, key)`, and consequently the payload a
recipient's mailbox records at delivery is the original plaintext. -/
theorem xor_roundtrip (p : List Nat) (net : Network ℚ) (m : Message ℚ) (i : Nat) (now : ℚ)
    (hct : m.cipherText = xorCipher m.payload encryptionKey)
    (hi : net.nodeIndex m.«to» = some i) :
    xorCipher (xorCipher p encryptionKey) encryptionKey = p
    ∧ (net.deliver m now).nodes.get? i = (net.nodes.get? i).map (fun nd =>
        { nd with inbox := nd.inbox ++
            [⟨m.id, m.«from», m.payload, m.deliverTime, m.deliverTime - m.sendTime⟩] })
    ∧ (∀ (fromName toName : String) (t : ℚ),
        ∀ m' ∈ (net.sendMessage fromName toName p t).inTransit,
          m' ∈ net.inTransit
          ∨ (m'.payload = p ∧ m'.cipherText = xorCipher p encryptionKey)) := by
  refine ⟨xorCipher_involutive encryptionKey p, ?_, ?_⟩
  · have hrec : deliverRecord m =
        ⟨m.id, m.«from», m.payload, m.deliverTime, m.deliverTime - m.sendTime⟩ := by
      simp [deliverRecord, hct, xorCipher_involutive]
    rw [deliver_eq_of_some now hi,
      show ({ net with
          deliveredCount := net.deliveredCount + 1,
          totalLatency := net.totalLatency + (m.deliverTime - m.sendTime),
          nodes := listUpdateAt net.nodes i
            (fun nd => { nd with inbox := nd.inbox ++ [deliverRecord m] }) } :
        Network ℚ).nodes = listUpdateAt net.nodes i
            (fun nd => { nd with inbox := nd.inbox ++ [deliverRecord m] }) from rfl,
      listUpdateAt_get?_self, hrec]
  · intro fromName toName t m' hm'
    by_cases hb : (net.draws net.drawIdx).1 < net.dropProb
    · rw [sendMessage_of_drop hb] at hm'
      exact Or.inl hm'
    · rw [sendMessage_of_not_drop hb] at hm'
      rcases List.mem_append.mp hm' with hold | hnew
      · exact Or.inl hold
      · rcases List.mem_singleton.mp hnew with rfl
        exact Or.inr ⟨rfl, rfl⟩

/-- Witness for C5: the two-byte payload `"hi"` round-trips through the
cipher, and delivering the corresponding wire message to `"B"` records the
plaintext in `"B"`'s mailbox. -/
theorem xor_roundtrip_hi :
    xorCipher (xorCipher [104, 105] encryptionKey) encryptionKey = [104, 105]
    ∧ (netB.deliver msgHi 1).nodes.get? 0 = (netB.nodes.get? 0).map (fun nd =>
        { nd with inbox := nd.inbox ++
            [⟨msgHi.id, msgHi.«from», msgHi.payload, msgHi.deliverTime,
              msgHi.deliverTime - msgHi.sendTime⟩] })
    ∧ (∀ (fromName toName : String) (t : ℚ),
        ∀ m' ∈ (netB.sendMessage fromName toName [104, 105] t).inTransit,
          m' ∈ netB.inTransit
          ∨ (m'.payload = [104, 105]
              ∧ m'.cipherText = xorCipher [104, 105] encryptionKey)) :=
  xor_roundtrip [104, 105] netB msgHi 0 1 rfl (by decide)

/-- C9: registering the same name twice rebinds the name index to the node
created by the second call; the first call's node stays in the
registration-ordered node sequence (and so in the summary's mailbox dump)
but no name lookup can reach its position any more. -/
theorem duplicate_registration_orphan (net : Network ℚ) (s : String) (hwf : wfIndex net) :
    (((net.addNode s).addNode s).nodeIndex s = some (net.nodes.length + 1))
    ∧ (((net.addNode s).addNode s).getNode s = some ⟨s, []⟩)
    ∧ (((net.addNode s).addNode s).nodes.get? (net.nodes.length + 1) = some ⟨s, []⟩)
    ∧ (((net.addNode s).addNode s).nodes.get? net.nodes.length = some ⟨s, []⟩)
    ∧ ((mailboxDump ((net.addNode s).addNode s)).get? net.nodes.length = some (s, []))
    ∧ (∀ t, ((net.addNode s).addNode s).nodeIndex t ≠ some net.nodes.length) := by
  have hlen : ((net.addNode s).nodes).length = net.nodes.length + 1 := by
    simp [Network.addNode]
  have hidx : ((net.addNode s).addNode s).nodeIndex s = some (net.nodes.length + 1) := by
    simp [Network.addNode]
  have hnodes : ((net.addNode s).addNode s).nodes
      = net.nodes ++ [⟨s, []⟩] ++ [⟨s, []⟩] := rfl
  have hget2 : ((net.addNode s).addNode s).nodes.get? (net.nodes.length + 1)
      = some ⟨s, []⟩ := by
    rw [hnodes, List.append_assoc]
    rw [List.get?_append_right (by simp)]
    simp
  have hget1 : ((net.addNode s).addNode s).nodes.get? net.nodes.length
      = some ⟨s, []⟩ := by
    rw [hnodes, List.append_assoc]
    rw [List.get?_append_right (by simp)]
    simp
  refine ⟨hidx, ?_, hget2, hget1, ?_, ?_⟩
  · rw [Network.getNode, hidx]
    exact hget2
  · rw [mailboxDump, List.get?_map, hget1]
    rfl
  · intro t hc
    by_cases hts : t = s
    · subst hts
      rw [hidx] at hc
      exact absurd (Option.some.inj hc) (by omega)
    · have : (net.addNode s).nodeIndex t = some net.nodes.length := by
        simpa [Network.addNode, hts] using hc
      have : net.nodeIndex t = some net.nodes.length := by
        simpa [Network.addNode, hts] using this
      exact absurd (hwf t net.nodes.length this) (lt_irrefl _)

/-- Witness for C9: duplicate registration of `"A"` on the empty
deterministic network. -/
theorem duplicate_registration_orphan_empty :
    (((detNet.addNode "A").addNode "A").nodeIndex "A" = some (detNet.nodes.length + 1))
    ∧ (((detNet.addNode "A").addNode "A").getNode "A" = some ⟨"A", []⟩)
    ∧ (((detNet.addNode "A").addNode "A").nodes.get? (detNet.nodes.length + 1)
        = some ⟨"A", []⟩)
    ∧ (((detNet.addNode "A").addNode "A").nodes.get? detNet.nodes.length = some ⟨"A", []⟩)
    ∧ ((mailboxDump ((detNet.addNode "A").addNode "A")).get? detNet.nodes.length
        = some ("A", []))
    ∧ (∀ t, ((detNet.addNode "A").addNode "A").nodeIndex t ≠ some detNet.nodes.length) :=
  duplicate_registration_orphan detNet "A" (by intro s i h; simp [detNet, Network.init] at h)

/-- C4: every sent message is classified exactly once as dropped or
in-transit; after an `advance(now)` whose time has reached every remaining
in-transit message's `deliverTime`, provided no recipient lookup failed
anywhere in the trace nor in that final advance, `deliveredCount +
droppedCount` equals the number of `send` calls. -/
theorem delivery_conservation (b j p : ℚ) (draws : Nat → ℚ × ℚ)
    (ops : List (NetOp ℚ)) (now : ℚ)
    (hok : lookupsOK (Network.init b j p draws) ops)
    (hdue : ∀ m ∈ (runOps (Network.init b j p draws) ops).inTransit, m.deliverTime ≤ now)
    (hsome : ∀ m ∈ (runOps (Network.init b j p draws) ops).inTransit,
        ((runOps (Network.init b j p draws) ops).nodeIndex m.«to»).isSome) :
    ((runOps (Network.init b j p draws) ops).step now).deliveredCount
      + ((runOps (Network.init b j p draws) ops).step now).droppedMessages.length
      = countSends ops := by
  have hbase := conservation_aux ops (Network.init b j p draws) hok
  rw [show (Network.init b j p draws).deliveredCount = 0 from rfl,
    show (Network.init b j p draws).droppedMessages.length = 0 from rfl,
    show (Network.init b j p draws).inTransit.length = 0 from rfl] at hbase
  rw [step_deliveredCount, step_droppedMessages]
  have hds : deliveredSet (runOps (Network.init b j p draws) ops) now
      (runOps (Network.init b j p draws) ops).inTransit
      = (runOps (Network.init b j p draws) ops).inTransit := by
    unfold deliveredSet
    rw [List.filter_eq_self]
    intro m hm
    simp [hdue m hm, hsome m hm]
  rw [hds]
  omega

/-- Witness for C4: the trace `convOps` (register `"A"`, `"B"`, one send at
`t = 0` on the deterministic network) followed by `advance(1)` ends with
`delivered + dropped = 1`. -/
theorem delivery_conservation_witness :
    ((runOps (Network.init 1 0 0 (fun _ => (0, 0))) convOps).step 1).deliveredCount
      + ((runOps (Network.init 1 0 0 (fun _ => (0, 0))) convOps).step 1).droppedMessages.length
      = countSends convOps := by
  have hnd : ¬ (convNet.draws convNet.drawIdx).1 < convNet.dropProb := by
    norm_num [convNet, detNet, Network.init, Network.addNode]
  have hrun : runOps (Network.init 1 0 0 (fun _ => (0, 0))) convOps
      = convNet.sendMessage "A" "B" [104, 105] 0 := rfl
  refine delivery_conservation 1 0 0 (fun _ => (0, 0)) convOps 1 ?_ ?_ ?_
  · exact ⟨trivial, trivial, trivial, trivial⟩
  · intro m hm
    rw [hrun, sendMessage_of_not_drop hnd] at hm
    have hmx : m = mkSentMessage convNet "A" "B" [104, 105] 0 := by
      simpa [convNet, detNet, Network.init, Network.addNode] using hm
    subst hmx
    show (0 : ℚ) + (convNet.baseLatency + (convNet.draws convNet.drawIdx).2) ≤ 1
    norm_num [convNet, detNet, Network.init, Network.addNode]
  · intro m hm
    rw [hrun, sendMessage_of_not_drop hnd] at hm
    have hmx : m = mkSentMessage convNet "A" "B" [104, 105] 0 := by
      simpa [convNet, detNet, Network.init, Network.addNode] using hm
    subst hmx
    rw [hrun, sendMessage_of_not_drop hnd]
    show (convNet.nodeIndex "B").isSome
    simp [convNet, detNet, Network.init, Network.addNode]

/-! ## Physics lemmas -/

theorem Vector2.add_def (a b : Vector2) : a + b = ⟨a.x + b.x, a.y + b.y⟩ := rfl

theorem Vector2.length_nonneg (a : Vector2) : 0 ≤ a.length := Real.sqrt_nonneg _

theorem Vector2.length_eq_zero_iff (a : Vector2) : a.length = 0 ↔ a = ⟨0, 0⟩ := by
  unfold Vector2.length
  constructor
  · intro h
    have hsum : a.x * a.x + a.y * a.y ≤ 0 := Real.sqrt_eq_zero'.mp h
    have hx : a.x = 0 := by nlinarith [mul_self_nonneg a.x, mul_self_nonneg a.y]
    have hy : a.y = 0 := by nlinarith [mul_self_nonneg a.x, mul_self_nonneg a.y]
    cases a
    simp_all
  · rintro rfl
    simp

theorem Vector2.length_smul (a : Vector2) (s : ℝ) : (a.smul s).length = a.length * |s| := by
  show Real.sqrt (a.x * s * (a.x * s) + a.y * s * (a.y * s))
      = Real.sqrt (a.x * a.x + a.y * a.y) * |s|
  rw [show a.x * s * (a.x * s) + a.y * s * (a.y * s)
      = (a.x * a.x + a.y * a.y) * (s * s) from by ring,
    Real.sqrt_mul (add_nonneg (mul_self_nonneg _) (mul_self_nonneg _)),
    show s * s = s ^ 2 from by ring, Real.sqrt_sq_eq_abs]

theorem Vector2.normalized_smul_length (a : Vector2) (h : a ≠ ⟨0, 0⟩) :
    a.normalized.smul a.length = a := by
  have hl : a.length ≠ 0 := fun h0 => h ((Vector2.length_eq_zero_iff a).mp h0)
  unfold Vector2.normalized
  rw [if_neg hl]
  show (⟨a.x / a.length * a.length, a.y / a.length * a.length⟩ : Vector2) = a
  rw [div_mul_cancel₀ _ hl, div_mul_cancel₀ _ hl]

theorem setThrustForce_mThrust (d : Drone) (force : Vector2) :
    (d.setThrustForce force).mThrust =
      if force.length = 0 ∨ force.length ≤ d.mParameters.maxThrust then force
      else force.smul (d.mParameters.maxThrust / force.length) := by
  unfold Drone.setThrustForce
  dsimp only
  split <;> rfl

theorem setThrustForce_mParameters (d : Drone) (force : Vector2) :
    (d.setThrustForce force).mParameters = d.mParameters := by
  unfold Drone.setThrustForce
  dsimp only
  split <;> rfl

/-- One axis of the boundary conditions: the `< 0` clamp followed by the
`> extent` clamp, with the velocity zeroing. -/
theorem clampAxis_spec (extent c vel : ℝ) (hex : 0 ≤ extent) :
    (0 ≤ (if extent < (if c < 0 then ((0 : ℝ), (0 : ℝ)) else (c, vel)).1
          then (extent, (0 : ℝ))
          else (if c < 0 then ((0 : ℝ), (0 : ℝ)) else (c, vel))).1)
    ∧ ((if extent < (if c < 0 then ((0 : ℝ), (0 : ℝ)) else (c, vel)).1
          then (extent, (0 : ℝ))
          else (if c < 0 then ((0 : ℝ), (0 : ℝ)) else (c, vel))).1 ≤ extent)
    ∧ ((c < 0 ∨ extent < c) →
        (if extent < (if c < 0 then ((0 : ℝ), (0 : ℝ)) else (c, vel)).1
          then (extent, (0 : ℝ))
          else (if c < 0 then ((0 : ℝ), (0 : ℝ)) else (c, vel))).2 = 0) := by
  by_cases h1 : c < 0
  · rw [if_pos h1]
    have h2 : ¬ extent < (0, (0 : ℝ)).1 := by simpa using not_lt.mpr hex
    rw [if_neg h2]
    exact ⟨le_refl 0, hex, fun _ => rfl⟩
  · rw [if_neg h1]
    by_cases h2 : extent < (c, vel).1
    · rw [if_pos h2]
      exact ⟨hex, le_refl extent, fun _ => rfl⟩
    · rw [if_neg h2]
      have hc0 : 0 ≤ c := not_lt.mp h1
      have hce : c ≤ extent := not_lt.mp (by simpa using h2)
      refine ⟨hc0, hce, fun hfire => ?_⟩
      rcases hfire with hlt | hgt
      · exact absurd hlt h1
      · exact absurd hgt (by simpa using h2)

/-- `clampToWorld` componentwise. -/
theorem clampToWorld_eq (world : World) (p v : Vector2) :
    clampToWorld world (p, v) =
      (⟨(if world.width < (if p.x < 0 then ((0 : ℝ), (0 : ℝ)) else (p.x, v.x)).1
            then (world.width, (0 : ℝ))
            else (if p.x < 0 then ((0 : ℝ), (0 : ℝ)) else (p.x, v.x))).1,
        (if world.height < (if p.y < 0 then ((0 : ℝ), (0 : ℝ)) else (p.y, v.y)).1
            then (world.height, (0 : ℝ))
            else (if p.y < 0 then ((0 : ℝ), (0 : ℝ)) else (p.y, v.y))).1⟩,
       ⟨(if world.width < (if p.x < 0 then ((0 : ℝ), (0 : ℝ)) else (p.x, v.x)).1
            then (world.width, (0 : ℝ))
            else (if p.x < 0 then ((0 : ℝ), (0 : ℝ)) else (p.x, v.x))).2,
        (if world.height < (if p.y < 0 then ((0 : ℝ), (0 : ℝ)) else (p.y, v.y)).1
            then (world.height, (0 : ℝ))
            else (if p.y < 0 then ((0 : ℝ), (0 : ℝ)) else (p.y, v.y))).2⟩) := rfl

theorem update_eq (d : Drone) (dt : ℝ) (world : World) :
    d.update dt world =
      { d with mPosition := (clampToWorld world (d.integrate dt world)).1,
               mVelocity := (clampToWorld world (d.integrate dt world)).2 } := rfl

/-- C7: after any physics update in a world with nonnegative extents, the
position is componentwise inside `[0, width] × [0, height]`, the axes are
clamped independently, and on every axis whose pre-clamp position was below
`0` or above the extent the post-update velocity component is exactly `0`. -/
theorem physics_bounds_clamp (d : Drone) (dt : ℝ) (world : World)
    (hw : 0 ≤ world.width) (hh : 0 ≤ world.height) :
    (0 ≤ (d.update dt world).mPosition.x
        ∧ (d.update dt world).mPosition.x ≤ world.width)
    ∧ (0 ≤ (d.update dt world).mPosition.y
        ∧ (d.update dt world).mPosition.y ≤ world.height)
    ∧ (((d.integrate dt world).1.x < 0 ∨ world.width < (d.integrate dt world).1.x) →
        (d.update dt world).mVelocity.x = 0)
    ∧ (((d.integrate dt world).1.y < 0 ∨ world.height < (d.integrate dt world).1.y) →
        (d.update dt world).mVelocity.y = 0) := by
  rcases hpv : d.integrate dt world with ⟨p, v⟩
  rw [update_eq]
  rw [hpv, clampToWorld_eq]
  dsimp only
  obtain ⟨hx0, hxw, hxv⟩ := clampAxis_spec world.width p.x v.x hw
  obtain ⟨hy0, hyh, hyv⟩ := clampAxis_spec world.height p.y v.y hh
  exact ⟨⟨hx0, hxw⟩, ⟨hy0, hyh⟩, hxv, hyv⟩

/-- Witness for C7: Scenario A's drone after one unit step in the 100x100
world. -/
theorem physics_bounds_clamp_witness :
    (0 ≤ (droneA.update 1 world100).mPosition.x
        ∧ (droneA.update 1 world100).mPosition.x ≤ world100.width)
    ∧ (0 ≤ (droneA.update 1 world100).mPosition.y
        ∧ (droneA.update 1 world100).mPosition.y ≤ world100.height)
    ∧ (((droneA.integrate 1 world100).1.x < 0
          ∨ world100.width < (droneA.integrate 1 world100).1.x) →
        (droneA.update 1 world100).mVelocity.x = 0)
    ∧ (((droneA.integrate 1 world100).1.y < 0
          ∨ world100.height < (droneA.integrate 1 world100).1.y) →
        (droneA.update 1 world100).mVelocity.y = 0) :=
  physics_bounds_clamp droneA 1 world100 (by norm_num [world100]) (by norm_num [world100])

/-- C8: the force-thrust command unconditionally replaces the previous
thrust (the result does not depend on the old thrust), the resulting
magnitude is `min(|force|, maxThrust)`, the force is kept unchanged when
`|force| ≤ maxThrust`, and a nonzero force's direction is preserved (the
result is the unit vector of `force` scaled by the resulting magnitude). -/
theorem setThrustForce_spec (d : Drone) (force : Vector2)
    (hT : 0 ≤ d.mParameters.maxThrust) :
    ((d.setThrustForce force).mThrust.length = min force.length d.mParameters.maxThrust)
    ∧ (∀ d' : Drone, d'.mParameters = d.mParameters →
        (d'.setThrustForce force).mThrust = (d.setThrustForce force).mThrust)
    ∧ (force.length ≤ d.mParameters.maxThrust → (d.setThrustForce force).mThrust = force)
    ∧ (force ≠ ⟨0, 0⟩ → (d.setThrustForce force).mThrust
        = force.normalized.smul (min force.length d.mParameters.maxThrust)) := by
  have hrepl : ∀ d' : Drone, d'.mParameters = d.mParameters →
      (d'.setThrustForce force).mThrust = (d.setThrustForce force).mThrust := by
    intro d' hp
    rw [setThrustForce_mThrust, setThrustForce_mThrust, hp]
  by_cases hc : force.length = 0 ∨ force.length ≤ d.mParameters.maxThrust
  · have hthr : (d.setThrustForce force).mThrust = force := by
      rw [setThrustForce_mThrust, if_pos hc]
    have hlen : force.length ≤ d.mParameters.maxThrust := by
      rcases hc with h0 | hle
      · rw [h0]
        exact hT
      · exact hle
    have hmin : min force.length d.mParameters.maxThrust = force.length := min_eq_left hlen
    refine ⟨?_, hrepl, fun _ => hthr, ?_⟩
    · rw [hthr, hmin]
    · intro hne
      rw [hthr, hmin, Vector2.normalized_smul_length force hne]
  · push_neg at hc
    obtain ⟨h0, hgt⟩ := hc
    have hlpos : 0 < force.length :=
      lt_of_le_of_ne (Vector2.length_nonneg force) (Ne.symm h0)
    have hthr : (d.setThrustForce force).mThrust
        = force.smul (d.mParameters.maxThrust / force.length) := by
      rw [setThrustForce_mThrust, if_neg (not_or.mpr ⟨h0, not_le.mpr hgt⟩)]
    have hmin : min force.length d.mParameters.maxThrust = d.mParameters.maxThrust :=
      min_eq_right (le_of_lt hgt)
    refine ⟨?_, hrepl, fun hle => absurd hle (not_le.mpr hgt), ?_⟩
    · rw [hthr, Vector2.length_smul, hmin,
        abs_of_nonneg (div_nonneg hT (le_of_lt hlpos)), mul_comm,
        div_mul_cancel₀ _ (ne_of_gt hlpos)]
    · intro hne
      rw [hthr, hmin]
      have hlne : force.length ≠ 0 := ne_of_gt hlpos
      unfold Vector2.normalized
      rw [if_neg hlne]
      show (⟨force.x * (d.mParameters.maxThrust / force.length),
             force.y * (d.mParameters.maxThrust / force.length)⟩ : Vector2)
          = ⟨force.x / force.length * d.mParameters.maxThrust,
             force.y / force.length * d.mParameters.maxThrust⟩
      simp only [Vector2.mk.injEq]
      constructor <;> ring

/-- Witness for C8: Scenario A's drone (maxThrust 10) commanded with the
force `(3, 4)`. -/
theorem setThrustForce_spec_witness :
    ((droneA.setThrustForce ⟨3, 4⟩).mThrust.length
        = min (Vector2.length ⟨3, 4⟩) droneA.mParameters.maxThrust)
    ∧ (∀ d' : Drone, d'.mParameters = droneA.mParameters →
        (d'.setThrustForce ⟨3, 4⟩).mThrust = (droneA.setThrustForce ⟨3, 4⟩).mThrust)
    ∧ (Vector2.length ⟨3, 4⟩ ≤ droneA.mParameters.maxThrust →
        (droneA.setThrustForce ⟨3, 4⟩).mThrust = ⟨3, 4⟩)
    ∧ ((⟨3, 4⟩ : Vector2) ≠ ⟨0, 0⟩ → (droneA.setThrustForce ⟨3, 4⟩).mThrust
        = (Vector2.normalized ⟨3, 4⟩).smul
            (min (Vector2.length ⟨3, 4⟩) droneA.mParameters.maxThrust)) :=
  setThrustForce_spec droneA ⟨3, 4⟩ (by norm_num [droneA, Drone.create])

/-- C6 — Scenario A: in the 100x100 world with gravity `(0, -9.8)`, an
agent of mass 1, maxThrust 10, maxSpeed 0 (unlimited) starting at
`(50, 50)` with thrust cleared has, after one orchestrator `step(dt = 1)`,
velocity `(0, -9.8)` and position `(50, 40.2)` — for any telemetry
formatter and any RNG oracle. -/
theorem scenarioA_gravity_step (fmt : Drone → List Nat) (draws : Nat → ℝ × ℝ) :
    (Simulator.step fmt
        ((((Simulator.init world100 draws).addDrone ⟨1, 10, 0⟩ ⟨50, 50⟩).2).clearDroneThrust 0)
        1).mDrones.map
        (fun d => ((d.mPosition.x, d.mPosition.y), (d.mVelocity.x, d.mVelocity.y)))
      = [((50, 40.2), (0, -9.8))] := by
  have hd2 : ((((Simulator.init world100 draws).addDrone ⟨1, 10, 0⟩ ⟨50, 50⟩).2).clearDroneThrust
      0).mDrones = [Drone.create 0 ⟨1, 10, 0⟩ ⟨50, 50⟩] := by
    simp [Simulator.init, Simulator.addDrone, Simulator.clearDroneThrust, Simulator.withDrone,
      listUpdateAt, Drone.create, Drone.clearThrust]
  have hw : ((((Simulator.init world100 draws).addDrone ⟨1, 10, 0⟩ ⟨50, 50⟩).2).clearDroneThrust
      0).mWorld = world100 := rfl
  have hstep : (Simulator.step fmt
      ((((Simulator.init world100 draws).addDrone ⟨1, 10, 0⟩ ⟨50, 50⟩).2).clearDroneThrust 0)
      1).mDrones
      = [(Drone.create 0 ⟨1, 10, 0⟩ ⟨50, 50⟩).update 1 world100] := by
    show ((((Simulator.init world100 draws).addDrone ⟨1, 10, 0⟩ ⟨50, 50⟩).2).clearDroneThrust
        0).mDrones.map (fun d => d.update 1
          ((((Simulator.init world100 draws).addDrone ⟨1, 10, 0⟩ ⟨50, 50⟩).2).clearDroneThrust
            0).mWorld) = _
    rw [hd2, hw]
    rfl
  rw [hstep]
  rw [update_eq]
  have hint : (Drone.create 0 ⟨1, 10, 0⟩ ⟨50, 50⟩).integrate 1 world100
      = (⟨50, 40.2⟩, ⟨0, -9.8⟩) := by
    unfold Drone.integrate
    norm_num [Drone.create, world100, Vector2.add_def, Vector2.smul]
  rw [hint, clampToWorld_eq]
  norm_num [world100]

/-! ## Orchestrator lemmas -/

theorem sendDroneStatus_nextMessageId (fmt : Drone → List Nat) (net : Network ℝ)
    (d : Drone) (t : ℝ) :
    (sendDroneStatus fmt net d t).nextMessageId = net.nextMessageId + 1 := by
  unfold sendDroneStatus
  by_cases hb : (net.draws net.drawIdx).1 < net.dropProb
  · rw [sendMessage_of_drop hb]
  · rw [sendMessage_of_not_drop hb]

theorem foldl_send_nextMessageId (fmt : Drone → List Nat) (t : ℝ) (ds : List Drone) :
    ∀ net : Network ℝ,
      (ds.foldl (fun net d => sendDroneStatus fmt net d t) net).nextMessageId
        = net.nextMessageId + ds.length := by
  induction ds with
  | nil => intro net; simp
  | cons d rest ih =>
      intro net
      rw [List.foldl_cons, ih, sendDroneStatus_nextMessageId]
      simp
      omega

theorem sendDroneStatus_mem (fmt : Drone → List Nat) (net : Network ℝ) (d : Drone)
    (t : ℝ) (m : Message ℝ) :
    m ∈ (sendDroneStatus fmt net d t).inTransit
        ++ (sendDroneStatus fmt net d t).droppedMessages →
      m ∈ net.inTransit ++ net.droppedMessages ∨ (m.«to» = "HQ" ∧ m.sendTime = t) := by
  unfold sendDroneStatus
  by_cases hb : (net.draws net.drawIdx).1 < net.dropProb
  · rw [sendMessage_of_drop hb]
    intro hm
    rcases List.mem_append.mp hm with hit | hdm
    · exact Or.inl (List.mem_append.mpr (Or.inl hit))
    · rcases List.mem_append.mp hdm with hold | hnew
      · exact Or.inl (List.mem_append.mpr (Or.inr hold))
      · rcases List.mem_singleton.mp hnew with rfl
        exact Or.inr ⟨rfl, rfl⟩
  · rw [sendMessage_of_not_drop hb]
    intro hm
    rcases List.mem_append.mp hm with hit | hdm
    · rcases List.mem_append.mp hit with hold | hnew
      · exact Or.inl (List.mem_append.mpr (Or.inl hold))
      · rcases List.mem_singleton.mp hnew with rfl
        exact Or.inr ⟨rfl, rfl⟩
    · exact Or.inl (List.mem_append.mpr (Or.inr hdm))

theorem foldl_send_mem (fmt : Drone → List Nat) (t : ℝ) (ds : List Drone) :
    ∀ (net : Network ℝ) (m : Message ℝ),
      m ∈ (ds.foldl (fun net d => sendDroneStatus fmt net d t) net).inTransit
          ++ (ds.foldl (fun net d => sendDroneStatus fmt net d t) net).droppedMessages →
        m ∈ net.inTransit ++ net.droppedMessages ∨ (m.«to» = "HQ" ∧ m.sendTime = t) := by
  induction ds with
  | nil => intro net m hm; exact Or.inl hm
  | cons d rest ih =>
      intro net m hm
      rw [List.foldl_cons] at hm
      rcases ih (sendDroneStatus fmt net d t) m hm with hin | hnew
      · exact sendDroneStatus_mem fmt net d t m hin
      · exact Or.inr hnew

theorem step_mem (net : Network τ) (now : τ) (m : Message τ) :
    m ∈ (net.step now).inTransit ++ (net.step now).droppedMessages →
      m ∈ net.inTransit ++ net.droppedMessages := by
  rw [step_inTransit, step_droppedMessages]
  intro hm
  rcases List.mem_append.mp hm with hit | hdm
  · exact List.mem_append.mpr (Or.inl (List.mem_filter.mp hit).1)
  · exact List.mem_append.mpr (Or.inr hdm)

/-- C2: one orchestrator `step(dt)` advances the clock by `dt` first, runs
every agent's physics before any telemetry send and every telemetry send
before the step's own network advance (the resulting network is the advance
at the new clock of the network obtained by sending one telemetry message
per *updated* agent); if the new clock has reached `nextReportTime` exactly
one message per agent is sent (the id counter grows by the number of
agents) and `nextReportTime` grows by exactly one `reportInterval` however
many boundaries were crossed; otherwise nothing is sent and
`nextReportTime` is unchanged; and every message record the step adds is a
telemetry message to the collector stamped with the new clock. -/
theorem orchestrator_step_spec (fmt : Drone → List Nat) (sim : Simulator) (dt : ℝ) :
    ((Simulator.step fmt sim dt).mSimTime = sim.mSimTime + dt)
    ∧ ((Simulator.step fmt sim dt).mDrones
        = sim.mDrones.map (fun d => d.update dt sim.mWorld))
    ∧ (sim.mNextReportTime ≤ sim.mSimTime + dt →
        (Simulator.step fmt sim dt).mNextReportTime
            = sim.mNextReportTime + sim.mReportInterval
        ∧ (Simulator.step fmt sim dt).mComms.nextMessageId
            = sim.mComms.nextMessageId + sim.mDrones.length
        ∧ (Simulator.step fmt sim dt).mComms
            = ((sim.mDrones.map (fun d => d.update dt sim.mWorld)).foldl
                (fun net d => sendDroneStatus fmt net d (sim.mSimTime + dt))
                sim.mComms).step (sim.mSimTime + dt))
    ∧ (sim.mSimTime + dt < sim.mNextReportTime →
        (Simulator.step fmt sim dt).mNextReportTime = sim.mNextReportTime
        ∧ (Simulator.step fmt sim dt).mComms.nextMessageId = sim.mComms.nextMessageId
        ∧ (Simulator.step fmt sim dt).mComms = sim.mComms.step (sim.mSimTime + dt))
    ∧ (∀ m : Message ℝ,
        m ∈ (Simulator.step fmt sim dt).mComms.inTransit
            ++ (Simulator.step fmt sim dt).mComms.droppedMessages →
          (m ∈ sim.mComms.inTransit ++ sim.mComms.droppedMessages)
          ∨ (m.«to» = "HQ" ∧ m.sendTime = sim.mSimTime + dt)) := by
  have hcomms : (Simulator.step fmt sim dt).mComms
      = (if sim.mNextReportTime ≤ sim.mSimTime + dt then
          (sim.mDrones.map (fun d => d.update dt sim.mWorld)).foldl
            (fun net d => sendDroneStatus fmt net d (sim.mSimTime + dt)) sim.mComms
        else sim.mComms).step (sim.mSimTime + dt) := rfl
  have hnrt : (Simulator.step fmt sim dt).mNextReportTime
      = (if sim.mNextReportTime ≤ sim.mSimTime + dt then
          sim.mNextReportTime + sim.mReportInterval
        else sim.mNextReportTime) := rfl
  refine ⟨rfl, rfl, ?_, ?_, ?_⟩
  · intro hfire
    rw [hcomms, hnrt, if_pos hfire, if_pos hfire]
    refine ⟨rfl, ?_, rfl⟩
    rw [step_nextMessageId, foldl_send_nextMessageId]
    simp
  · intro hlate
    have hnot : ¬ sim.mNextReportTime ≤ sim.mSimTime + dt := not_le.mpr hlate
    rw [hcomms, hnrt, if_neg hnot, if_neg hnot]
    exact ⟨rfl, step_nextMessageId sim.mComms (sim.mSimTime + dt), rfl⟩
  · intro m hm
    rw [hcomms] at hm
    by_cases hfire : sim.mNextReportTime ≤ sim.mSimTime + dt
    · rw [if_pos hfire] at hm
      exact foldl_send_mem fmt (sim.mSimTime + dt)
        (sim.mDrones.map (fun d => d.update dt sim.mWorld)) sim.mComms m
        (step_mem _ _ m hm)
    · rw [if_neg hfire] at hm
      exact Or.inl (step_mem _ _ m hm)

end DroneSwarm
